import Mathlib

/-!
Verification of the mcap2csv converter (`mcap2csv.py`) against its design
specification.  The development shallowly embeds the message flattener
(`flatten_ros_message`), the ingest loop and the per-topic table assembly /
column-ordering logic, and proves the specified properties about them.

Modelling conventions:
* a decoded ROS message value is a `Value`: a basic scalar (`int`, `float`,
  `str`, `bool` — the Python `isinstance(value, (int, float, str, bool))`
  test), a `list`/`tuple` of values, an object with `__slots__` (a message
  with named fields), or any other unsupported value (bytes, dict, `None`,
  ...) carrying its Python type name for the diagnostic text;
* Python floats are modelled as rationals (`Rat`);
* a Python `dict` is an insertion-ordered association list: assignment to an
  existing key overwrites in place, assignment to a fresh key appends
  (`dinsert`), and `dict.update` folds assignments left to right (`dupdate`);
* `logging.debug`/`logging.warning` calls are collected in an explicit list
  of `(LogLevel, message)` pairs.
-/

namespace Mcap2Csv

/-- The Python basic types accepted by the flattener:
`isinstance(value, (int, float, str, bool))`. -/
inductive Scalar : Type where
  | int : Int → Scalar
  | float : Rat → Scalar
  | str : String → Scalar
  | bool : Bool → Scalar
deriving DecidableEq

/-- Severity levels of the `logging` module used by the script. -/
inductive LogLevel : Type where
  | debug | info | warning | error
deriving DecidableEq

/-- A flat row: the Python dict built by `flatten_ros_message`, as an
insertion-ordered association list from dotted keys to scalar values. -/
abbrev Row := List (String × Scalar)

/-- Accumulated log messages. -/
abbrev Diags := List (LogLevel × String)

mutual
/-- A decoded ROS message value as seen by `flatten_ros_message`. -/
inductive Value : Type where
  | vscalar : Scalar → Value
  | vlist : ValList → Value
  | vmsg : Fields → Value
  | vother : String → Value

/-- A Python `list`/`tuple` of values. -/
inductive ValList : Type where
  | nil : ValList
  | cons : Value → ValList → ValList

/-- The `__slots__` fields of a message object, in declaration order. -/
inductive Fields : Type where
  | fnil : Fields
  | fcons : String → Value → Fields → Fields
end

/-- The Python type name of a value, used in skip diagnostics (`type(value)`). -/
def typeName : Value → String
  | .vscalar (.int _) => "int"
  | .vscalar (.float _) => "float"
  | .vscalar (.str _) => "str"
  | .vscalar (.bool _) => "bool"
  | .vlist _ => "list"
  | .vmsg _ => "message"
  | .vother ty => ty

/-- Python dict assignment `d[k] = v`: overwrite in place if the key exists,
append otherwise. -/
def dinsert (row : Row) (k : String) (v : Scalar) : Row :=
  if row.any (fun p => p.1 = k) then
    row.map (fun p => if p.1 = k then (k, v) else p)
  else row ++ [(k, v)]

/-- Python `d1.update(d2)`: assign every entry of `d2` into `d1`, left to
right. -/
def dupdate (row : Row) (entries : Row) : Row :=
  entries.foldl (fun acc p => dinsert acc p.1 p.2) row

/-- Python dict lookup `d[k]`, as an `Option`. -/
def rlookup (row : Row) (k : String) : Option Scalar :=
  match row with
  | [] => none
  | p :: rest => if p.1 = k then some p.2 else rlookup rest k

/-- The dotted key of a field: `prefix + "." + field_name` when a non-empty
prefix was supplied, the bare field name otherwise (`if prefix:` truthiness). -/
def dkey (pre f : String) : String :=
  if pre = "" then f else pre ++ "." ++ f

/-- The indexed key of a sequence element: `f"{key}[{i}]"`. -/
def ikey (key : String) (i : Nat) : String :=
  key ++ "[" ++ Nat.repr i ++ "]"

mutual
/-- The `for field_name in msg.__slots__` loop of `flatten_ros_message`,
threading the dict and the emitted diagnostics.  A nested message field
recurses with the dict starting empty (`flatten_ros_message(value, prefix=key)`)
and the result is merged by `dict.update`. -/
def flattenFields (acc : Row × Diags) (pre : String) (fields : Fields) :
    Row × Diags :=
  match fields with
  | .fnil => acc
  | .fcons f v rest =>
      let key := dkey pre f
      let acc2 : Row × Diags :=
        match v with
        | .vscalar s => (dinsert acc.1 key s, acc.2)
        | .vlist elems => flattenElems acc key 0 elems
        | .vmsg sub =>
            let r := flattenFields ([], []) key sub
            (dupdate acc.1 r.1, acc.2 ++ r.2)
        | .vother ty =>
            (acc.1, acc.2 ++
              [(LogLevel.debug,
                "Skipping unsupported field type for " ++ key ++ ": " ++ ty)])
      flattenFields acc2 pre rest

/-- The `for i, v in enumerate(value)` loop over a list/tuple field: scalar
elements are inserted under `key[i]`, message elements are flattened with
the indexed key and merged, anything else is skipped with a debug message.
A skipped element still consumes its index. -/
def flattenElems (acc : Row × Diags) (key : String) (i : Nat)
    (elems : ValList) : Row × Diags :=
  match elems with
  | .nil => acc
  | .cons v rest =>
      let acc2 : Row × Diags :=
        match v with
        | .vscalar s => (dinsert acc.1 (ikey key i) s, acc.2)
        | .vmsg sub =>
            let r := flattenFields ([], []) (ikey key i) sub
            (dupdate acc.1 r.1, acc.2 ++ r.2)
        | _ =>
            (acc.1, acc.2 ++
              [(LogLevel.debug,
                "Skipping unsupported list element type for " ++ ikey key i
                  ++ ": " ++ typeName v)])
      flattenElems acc2 key (i + 1) rest
end

/-- `flatten_ros_message(msg, prefix="")`: a message object is flattened field
by field; a bare basic value becomes the single entry `(prefix, msg)`; any
other value yields the empty dict. -/
def flatten_ros_message (msg : Value) (pre : String := "") : Row × Diags :=
  match msg with
  | .vmsg fields => flattenFields ([], []) pre fields
  | .vscalar s => ([(pre, s)], [])
  | .vlist _ => ([], [])
  | .vother _ => ([], [])

/-! ### Ingest loop (`main`, reading phase) -/

/-- One entry of the external reader's stream: topic name, decoded message
(`none` on deserialization failure) and the log time in nanoseconds. -/
structure MsgEntry : Type where
  topic : String
  ros_msg : Option Value
  log_time : Int

/-- The per-topic buckets `topic_data`, insertion-ordered by first appearance
of each topic, each holding its rows in arrival order. -/
abbrev TopicData := List (String × List Row)

/-- Append a row to a topic's bucket, creating the bucket on first use. -/
def appendRow (td : TopicData) (topic : String) (row : Row) : TopicData :=
  if td.any (fun p => p.1 = topic) then
    td.map (fun p => if p.1 = topic then (p.1, p.2 ++ [row]) else p)
  else td ++ [(topic, [row])]

/-- State of the reading loop: accumulated buckets and emitted log messages. -/
structure IngestState : Type where
  topic_data : TopicData
  diags : Diags
deriving DecidableEq

/-- The body of `for msg_entry in read_ros2_messages(...)`: skip (with a
warning) entries whose message failed to deserialize, otherwise flatten the
payload, unconditionally set `row["log_timestamp_ns"] = log_time`, skip the
row if the dict is empty (unreachable after the timestamp insert), and append
it to its topic's bucket. -/
def ingestStep (st : IngestState) (e : MsgEntry) : IngestState :=
  match e.ros_msg with
  | none =>
      ⟨st.topic_data,
        st.diags ++
          [(LogLevel.warning,
            "Skipping message from topic '" ++ e.topic
              ++ "' due to deserialization failure.")]⟩
  | some m =>
      let fr := flatten_ros_message m ""
      let row := dinsert fr.1 "log_timestamp_ns" (Scalar.int e.log_time)
      let diags := st.diags ++ fr.2
      if row = [] then
        ⟨st.topic_data,
          diags ++
            [(LogLevel.debug,
              "Skipping message from topic '" ++ e.topic
                ++ "' as no extractable fields were found (even after adding log_timestamp).")]⟩
      else ⟨appendRow st.topic_data e.topic row, diags⟩

/-- The whole reading loop over a finite stream. -/
def ingest (entries : List MsgEntry) : IngestState :=
  entries.foldl ingestStep ⟨[], []⟩

/-- Total number of buffered rows across all buckets. -/
def totalRows (td : TopicData) : Nat :=
  (td.map (fun p => p.2.length)).sum

/-! ### Table assembly (`main`, writing phase) -/

/-- Add one key to the frame's column list if it is not already there. -/
def cinsert (cols : List String) (k : String) : List String :=
  if cols.contains k then cols else cols ++ [k]

/-- Add all keys of one row to the frame's column list. -/
def addRowCols (cols : List String) (row : Row) : List String :=
  row.foldl (fun cols p => cinsert cols p.1) cols

/-- The column universe of `pd.DataFrame(messages)`: the union of the rows'
keys in first-seen order, scanning rows in arrival order. -/
def colUniverse (rows : List Row) : List String :=
  rows.foldl addRowCols []

/-- Accumulating decimal parse of a digit string; fails on a non-digit. -/
def digitsToNat (l : List Char) (acc : Nat) : Option Nat :=
  match l with
  | [] => some acc
  | c :: rest =>
      if '0' ≤ c ∧ c ≤ '9' then
        digitsToNat rest (acc * 10 + (c.toNat - '0'.toNat))
      else none

/-- Integer-literal string parse (model of pandas' numeric-string
coercion, restricted to the integer strings the tool can encounter). -/
def strToInt? (s : String) : Option Int :=
  match s.data with
  | [] => none
  | '-' :: [] => none
  | '-' :: c :: rest => (digitsToNat (c :: rest) 0).map (fun n => -(n : Int))
  | c :: rest => (digitsToNat (c :: rest) 0).map (fun n => (n : Int))

/-- `pd.to_numeric(·, errors="coerce")` on one cell: numbers pass through,
booleans count as 1/0, integer-literal strings parse, anything else (and a
missing cell) becomes the missing marker `none`. -/
def toNumeric : Scalar → Option Rat
  | .int n => some (n : Rat)
  | .float q => some q
  | .bool b => some (if b then 1 else 0)
  | .str s => (strToInt? s).map (fun n => (n : Rat))

/-- The derived `log_timestamp` cell of one row:
`pd.to_numeric(df["log_timestamp_ns"], errors="coerce") / 1_000_000_000.0`,
with missing propagating through the division. -/
def logTimestampCell (row : Row) : Option Rat :=
  ((rlookup row "log_timestamp_ns").bind toNumeric).map
    (fun q => q / 1000000000)

/-- One `if <col> in other_cols (and topic check): ordered_cols.append;
other_cols.remove` block of the reordering code.  `list.remove` removes the
first occurrence. -/
def moveUp (st : List String × List String) (c : String) (cond : Bool) :
    List String × List String :=
  if st.2.contains c ∧ cond then (st.1 ++ [c], st.2.erase c) else st

/-- The four sequential move-up blocks of the reordering code, starting from
`ordered_cols = ["log_timestamp"]` and the remaining columns: promote
`header.stamp.sec` and `header.stamp.nanosec` unconditionally, `stamp.sec`
and `stamp.nanosec` only for the `/rosout` topic. -/
def reorderSteps (topic : String) (other0 : List String) :
    List String × List String :=
  moveUp (moveUp (moveUp (moveUp (["log_timestamp"], other0)
    "header.stamp.sec" true) "header.stamp.nanosec" true)
    "stamp.sec" (topic == "/rosout")) "stamp.nanosec" (topic == "/rosout")

/-- The column-reordering block: drop `log_timestamp` and `log_timestamp_ns`
from the scan order, run the move-up blocks, and append what is left of
`other_cols`. -/
def orderedCols (topic : String) (cols : List String) : List String :=
  let st4 := reorderSteps topic
    (cols.filter (fun c => c ≠ "log_timestamp" ∧ c ≠ "log_timestamp_ns"))
  st4.1 ++ st4.2

/-- Assigning the derived `log_timestamp` column into the frame: a fresh
column name is appended at the end of the column order; an existing one is
overwritten in place. -/
def withLogTs (cols : List String) : List String :=
  if cols.contains "log_timestamp" then cols else cols ++ ["log_timestamp"]

/-- The final `df.drop(columns=["log_timestamp_ns"])`, guarded by the
`if "log_timestamp_ns" in df.columns` check. -/
def dropNs (oc : List String) : List String :=
  if oc.contains "log_timestamp_ns" then
    oc.filter (fun c => c ≠ "log_timestamp_ns")
  else oc

/-- The final column list of one topic's CSV: when `log_timestamp_ns` is
present, coerce it, derive `log_timestamp` (appending the fresh column at the
end of the frame), reorder, and drop `log_timestamp_ns` if still present;
otherwise the frame passes through in natural order with a warning. -/
def assembleCols (topic : String) (rows : List Row) : List String :=
  if (colUniverse rows).contains "log_timestamp_ns" then
    dropNs (orderedCols topic (withLogTs (colUniverse rows)))
  else colUniverse rows

/-! ### Auxiliary constructions used only in the statements and proofs -/

/-- The keys of a row, in dict insertion order. -/
def keys (row : Row) : List String := row.map Prod.fst

/-- Embed a list of scalars as a Python list value's elements. -/
def scalarList : List Scalar → ValList
  | [] => .nil
  | s :: rest => .cons (.vscalar s) (scalarList rest)

/-- Embed a list of messages as a Python list value's elements. -/
def msgList : List Fields → ValList
  | [] => .nil
  | m :: rest => .cons (.vmsg m) (msgList rest)

/-- The decimal value of a digit character. -/
def digitVal (c : Char) : Nat := c.toNat - '0'.toNat

/-- Decode a decimal digit string back to the natural number it denotes. -/
def decodeDigits (l : List Char) : Nat :=
  l.foldl (fun acc c => acc * 10 + digitVal c) 0

end Mcap2Csv

namespace Mcap2Csv

/-! ### Decimal rendering of indices is injective -/

theorem toDigitsCore_append (fuel : Nat) :
    ∀ (n : Nat) (ds : List Char),
      Nat.toDigitsCore 10 fuel n ds = Nat.toDigitsCore 10 fuel n [] ++ ds := by
  induction fuel with
  | zero => intro n ds; simp [Nat.toDigitsCore]
  | succ fuel ih =>
      intro n ds
      simp only [Nat.toDigitsCore]
      by_cases h : n / 10 = 0
      · simp [h]
      · simp only [h, if_false]
        rw [ih (n / 10) (Nat.digitChar (n % 10) :: ds),
          ih (n / 10) [Nat.digitChar (n % 10)]]
        simp

theorem toDigitsCore_fuel (n : Nat) :
    ∀ f1 f2 ds, n < f1 → n < f2 →
      Nat.toDigitsCore 10 f1 n ds = Nat.toDigitsCore 10 f2 n ds := by
  induction n using Nat.strong_induction_on with
  | _ n ih =>
      intro f1 f2 ds h1 h2
      match f1, f2 with
      | g1 + 1, g2 + 1 =>
          simp only [Nat.toDigitsCore]
          by_cases h : n / 10 = 0
          · simp [h]
          · simp only [h, if_false]
            have hn : 0 < n := by
              rcases Nat.eq_zero_or_pos n with h0 | h0
              · subst h0; simp at h
              · exact h0
            have hlt : n / 10 < n := Nat.div_lt_self hn (by norm_num)
            exact ih (n / 10) hlt g1 g2 _ (by omega) (by omega)

theorem decodeDigits_append (l : List Char) (c : Char) :
    decodeDigits (l ++ [c]) = decodeDigits l * 10 + digitVal c := by
  simp [decodeDigits, List.foldl_append]

theorem digitVal_digitChar (m : Nat) (h : m < 10) :
    digitVal (Nat.digitChar m) = m := by
  interval_cases m <;> rfl

theorem decodeDigits_toDigits (n : Nat) :
    decodeDigits (Nat.toDigits 10 n) = n := by
  induction n using Nat.strong_induction_on with
  | _ n ih =>
      rw [Nat.toDigits]
      simp only [Nat.toDigitsCore]
      by_cases h : n / 10 = 0
      · have hlt : n < 10 := by omega
        have hmod : n % 10 = n := Nat.mod_eq_of_lt hlt
        simp only [h, if_true]
        show decodeDigits [Nat.digitChar (n % 10)] = n
        rw [hmod]
        simp [decodeDigits, digitVal_digitChar n hlt]
      · have hn : 0 < n := by
          rcases Nat.eq_zero_or_pos n with h0 | h0
          · subst h0; simp at h
          · exact h0
        have hlt : n / 10 < n := Nat.div_lt_self hn (by norm_num)
        simp only [h, if_false]
        rw [toDigitsCore_fuel (n / 10) n (n / 10 + 1) _ hlt (Nat.lt_succ_self _),
          toDigitsCore_append]
        have heq : Nat.toDigitsCore 10 (n / 10 + 1) (n / 10) [] =
            Nat.toDigits 10 (n / 10) := rfl
        rw [heq, decodeDigits_append, ih (n / 10) hlt,
          digitVal_digitChar _ (Nat.mod_lt _ (by norm_num))]
        omega

theorem reprData_inj {m n : Nat}
    (h : (Nat.repr m).data = (Nat.repr n).data) : m = n := by
  have hm : decodeDigits (Nat.repr m).data = m := decodeDigits_toDigits m
  have hn : decodeDigits (Nat.repr n).data = n := decodeDigits_toDigits n
  rw [← hm, ← hn, h]

theorem ikey_inj {key : String} {i j : Nat} (h : ikey key i = ikey key j) :
    i = j := by
  have hd := congrArg String.data h
  simp only [ikey, String.data_append, List.append_assoc] at hd
  have h1 := List.append_cancel_left hd
  simp only [List.cons_append, List.nil_append] at h1
  have h2 := List.tail_eq_of_cons_eq h1
  have h3 := List.append_cancel_right h2
  exact reprData_inj h3

/-! ### Python dict lemmas -/

theorem any_eq_mem_keys (row : Row) (k : String) :
    row.any (fun p => p.1 = k) = true ↔ k ∈ keys row := by
  constructor
  · intro h
    rcases List.any_eq_true.1 h with ⟨p, hp, he⟩
    exact List.mem_map.2 ⟨p, hp, of_decide_eq_true he⟩
  · intro h
    rcases List.mem_map.1 h with ⟨p, hp, he⟩
    exact List.any_eq_true.2 ⟨p, hp, decide_eq_true he⟩

theorem dinsert_ne_nil (row : Row) (k : String) (v : Scalar) :
    dinsert row k v ≠ [] := by
  unfold dinsert
  by_cases h : row.any (fun p => p.1 = k) = true
  · cases row with
    | nil => simp at h
    | cons p rest => simp [h]
  · simp [h]

theorem keys_dinsert_of_mem (row : Row) (k : String) (v : Scalar)
    (h : row.any (fun p => p.1 = k) = true) :
    keys (dinsert row k v) = keys row := by
  simp only [dinsert, h, if_true, keys, List.map_map]
  apply List.map_congr_left
  intro p _
  by_cases hp : p.1 = k <;> simp [hp]

theorem keys_dinsert_of_not_mem (row : Row) (k : String) (v : Scalar)
    (h : ¬row.any (fun p => p.1 = k) = true) :
    keys (dinsert row k v) = keys row ++ [k] := by
  unfold dinsert
  rw [if_neg h]
  simp [keys]

theorem nodup_keys_dinsert (row : Row) (k : String) (v : Scalar)
    (h : (keys row).Nodup) : (keys (dinsert row k v)).Nodup := by
  by_cases hm : row.any (fun p => p.1 = k) = true
  · rw [keys_dinsert_of_mem row k v hm]; exact h
  · rw [keys_dinsert_of_not_mem row k v hm]
    have : k ∉ keys row := fun hk => hm ((any_eq_mem_keys row k).2 hk)
    simp [List.nodup_append, h, this]

theorem dupdate_cons (row : Row) (p : String × Scalar) (rest : Row) :
    dupdate row (p :: rest) = dupdate (dinsert row p.1 p.2) rest := rfl

theorem nodup_keys_dupdate (d : Row) :
    ∀ row : Row, (keys row).Nodup → (keys (dupdate row d)).Nodup := by
  induction d with
  | nil => intro row h; exact h
  | cons p rest ih =>
      intro row h
      rw [dupdate_cons]
      exact ih _ (nodup_keys_dinsert row p.1 p.2 h)

theorem rlookup_append_of_not_mem (row : Row) (k : String) (v : Scalar)
    (h : k ∉ keys row) : rlookup (row ++ [(k, v)]) k = some v := by
  induction row with
  | nil => simp [rlookup]
  | cons p rest ih =>
      have hp : p.1 ≠ k := by
        intro hk; exact h (by simp [keys, hk])
      simp only [List.cons_append, rlookup, hp, if_false]
      exact ih (fun hk => h (by simp [keys] at hk ⊢; right; exact hk))

theorem rlookup_overwrite (row : Row) (k : String) (v : Scalar)
    (h : row.any (fun p => p.1 = k) = true) :
    rlookup (row.map (fun p => if p.1 = k then (k, v) else p)) k = some v := by
  induction row with
  | nil => simp at h
  | cons p rest ih =>
      by_cases hp : p.1 = k
      · simp [rlookup, hp]
      · simp only [List.any_cons, hp] at h
        simp only [List.map_cons, hp, if_false, rlookup]
        exact ih (by simpa using h)

theorem rlookup_dinsert_self (row : Row) (k : String) (v : Scalar) :
    rlookup (dinsert row k v) k = some v := by
  unfold dinsert
  by_cases h : row.any (fun p => p.1 = k) = true
  · simp only [h, if_true]
    exact rlookup_overwrite row k v h
  · simp only [h, if_false]
    exact rlookup_append_of_not_mem row k v
      (fun hk => h ((any_eq_mem_keys row k).2 hk))

theorem dinsert_of_not_mem (row : Row) (p : String × Scalar)
    (h : p.1 ∉ keys row) : dinsert row p.1 p.2 = row ++ [p] := by
  have : ¬row.any (fun q => q.1 = p.1) = true :=
    fun hk => h ((any_eq_mem_keys row p.1).1 hk)
  simp [dinsert, this]

theorem dupdate_disjoint (d : Row) :
    ∀ row : Row, (keys d).Nodup → (∀ a ∈ keys d, a ∉ keys row) →
      dupdate row d = row ++ d := by
  induction d with
  | nil => intro row _ _; simp [dupdate]
  | cons p rest ih =>
      intro row hnd hdis
      have hnd2 : (p.1 :: keys rest).Nodup := hnd
      have hp_rest : p.1 ∉ keys rest := (List.nodup_cons.1 hnd2).1
      have hrest_nd : (keys rest).Nodup := (List.nodup_cons.1 hnd2).2
      have hdis' : ∀ a ∈ keys rest, a ∉ keys (row ++ [p]) := by
        intro a ha
        have h1 : a ∉ keys row := hdis a (List.mem_cons_of_mem _ ha)
        have h2 : a ≠ p.1 := fun hk => hp_rest (hk ▸ ha)
        have hkeys : keys (row ++ [p]) = keys row ++ [p.1] := by simp [keys]
        rw [hkeys]
        simp [h1, h2]
      rw [dupdate_cons,
        dinsert_of_not_mem row p (hdis p.1 (List.mem_cons_self _ _)),
        ih (row ++ [p]) hrest_nd hdis', List.append_assoc]
      rfl

theorem dupdate_nil (d : Row) (h : (keys d).Nodup) : dupdate [] d = d := by
  have := dupdate_disjoint d [] h (by simp [keys])
  simpa using this

/-! ### Unfolding equations for the flattener -/

theorem flattenFields_fnil (r : Row) (ds : Diags) (pre : String) :
    flattenFields (r, ds) pre .fnil = (r, ds) := rfl

theorem flattenFields_scalar (r : Row) (ds : Diags) (pre f : String)
    (s : Scalar) (rest : Fields) :
    flattenFields (r, ds) pre (.fcons f (.vscalar s) rest)
      = flattenFields (dinsert r (dkey pre f) s, ds) pre rest := rfl

theorem flattenFields_list (r : Row) (ds : Diags) (pre f : String)
    (elems : ValList) (rest : Fields) :
    flattenFields (r, ds) pre (.fcons f (.vlist elems) rest)
      = flattenFields (flattenElems (r, ds) (dkey pre f) 0 elems) pre rest := rfl

theorem flattenFields_msg (r : Row) (ds : Diags) (pre f : String)
    (sub rest : Fields) :
    flattenFields (r, ds) pre (.fcons f (.vmsg sub) rest)
      = flattenFields
          (dupdate r (flattenFields ([], []) (dkey pre f) sub).1,
            ds ++ (flattenFields ([], []) (dkey pre f) sub).2) pre rest := rfl

theorem flattenFields_other (r : Row) (ds : Diags) (pre f ty : String)
    (rest : Fields) :
    flattenFields (r, ds) pre (.fcons f (.vother ty) rest)
      = flattenFields
          (r, ds ++
            [(LogLevel.debug,
              "Skipping unsupported field type for " ++ dkey pre f ++ ": " ++ ty)])
          pre rest := rfl

theorem flattenElems_nil (r : Row) (ds : Diags) (key : String) (i : Nat) :
    flattenElems (r, ds) key i .nil = (r, ds) := rfl

theorem flattenElems_scalar (r : Row) (ds : Diags) (key : String) (i : Nat)
    (s : Scalar) (rest : ValList) :
    flattenElems (r, ds) key i (.cons (.vscalar s) rest)
      = flattenElems (dinsert r (ikey key i) s, ds) key (i + 1) rest := rfl

theorem flattenElems_msg (r : Row) (ds : Diags) (key : String) (i : Nat)
    (sub : Fields) (rest : ValList) :
    flattenElems (r, ds) key i (.cons (.vmsg sub) rest)
      = flattenElems
          (dupdate r (flattenFields ([], []) (ikey key i) sub).1,
            ds ++ (flattenFields ([], []) (ikey key i) sub).2) key (i + 1) rest := rfl

theorem flattenElems_list (r : Row) (ds : Diags) (key : String) (i : Nat)
    (l rest : ValList) :
    flattenElems (r, ds) key i (.cons (.vlist l) rest)
      = flattenElems
          (r, ds ++
            [(LogLevel.debug,
              "Skipping unsupported list element type for " ++ ikey key i
                ++ ": " ++ typeName (.vlist l))]) key (i + 1) rest := rfl

theorem flattenElems_other (r : Row) (ds : Diags) (key : String) (i : Nat)
    (ty : String) (rest : ValList) :
    flattenElems (r, ds) key i (.cons (.vother ty) rest)
      = flattenElems
          (r, ds ++
            [(LogLevel.debug,
              "Skipping unsupported list element type for " ++ ikey key i
                ++ ": " ++ typeName (.vother ty))]) key (i + 1) rest := rfl

/-! ### Keys of a flattened row are unique -/

theorem flattenElems_nodup :
    ∀ (elems : ValList) (r : Row) (ds : Diags) (key : String) (i : Nat),
      (keys r).Nodup → (keys (flattenElems (r, ds) key i elems).1).Nodup
  | .nil, _, _, _, _, h => h
  | .cons (.vscalar s) rest, r, ds, key, i, h => by
      rw [flattenElems_scalar]
      exact flattenElems_nodup rest _ _ key (i + 1) (nodup_keys_dinsert _ _ _ h)
  | .cons (.vlist l) rest, r, ds, key, i, h => by
      rw [flattenElems_list]
      exact flattenElems_nodup rest _ _ key (i + 1) h
  | .cons (.vmsg sub) rest, r, ds, key, i, h => by
      rw [flattenElems_msg]
      exact flattenElems_nodup rest _ _ key (i + 1) (nodup_keys_dupdate _ _ h)
  | .cons (.vother ty) rest, r, ds, key, i, h => by
      rw [flattenElems_other]
      exact flattenElems_nodup rest _ _ key (i + 1) h

theorem flattenFields_nodup :
    ∀ (fields : Fields) (r : Row) (ds : Diags) (pre : String),
      (keys r).Nodup → (keys (flattenFields (r, ds) pre fields).1).Nodup
  | .fnil, _, _, _, h => h
  | .fcons f (.vscalar s) rest, r, ds, pre, h => by
      rw [flattenFields_scalar]
      exact flattenFields_nodup rest _ _ pre (nodup_keys_dinsert _ _ _ h)
  | .fcons f (.vlist elems) rest, r, ds, pre, h => by
      rw [flattenFields_list]
      have h2 := flattenElems_nodup elems r ds (dkey pre f) 0 h
      have hpair : flattenElems (r, ds) (dkey pre f) 0 elems
          = ((flattenElems (r, ds) (dkey pre f) 0 elems).1,
              (flattenElems (r, ds) (dkey pre f) 0 elems).2) := rfl
      rw [hpair]
      exact flattenFields_nodup rest _ _ pre h2
  | .fcons f (.vmsg sub) rest, r, ds, pre, h => by
      rw [flattenFields_msg]
      exact flattenFields_nodup rest _ _ pre (nodup_keys_dupdate _ _ h)
  | .fcons f (.vother ty) rest, r, ds, pre, h => by
      rw [flattenFields_other]
      exact flattenFields_nodup rest _ _ pre h

theorem flatten_nodup_keys (v : Value) (pre : String) :
    (keys (flatten_ros_message v pre).1).Nodup := by
  cases v with
  | vmsg fields => exact flattenFields_nodup fields [] [] pre (by simp [keys])
  | vscalar s => simp [flatten_ros_message, keys]
  | vlist l => simp [flatten_ros_message, keys]
  | vother ty => simp [flatten_ros_message, keys]

/-! ### The row part is independent of accumulated diagnostics, and
diagnostics accumulate as a prefix -/

theorem flattenElems_row_indep :
    ∀ (elems : ValList) (r : Row) (ds ds' : Diags) (key : String) (i : Nat),
      (flattenElems (r, ds) key i elems).1 = (flattenElems (r, ds') key i elems).1
  | .nil, _, _, _, _, _ => rfl
  | .cons (.vscalar s) rest, r, ds, ds', key, i => by
      rw [flattenElems_scalar, flattenElems_scalar]
      exact flattenElems_row_indep rest _ ds ds' key (i + 1)
  | .cons (.vlist l) rest, r, ds, ds', key, i => by
      rw [flattenElems_list, flattenElems_list]
      exact flattenElems_row_indep rest _ _ _ key (i + 1)
  | .cons (.vmsg sub) rest, r, ds, ds', key, i => by
      rw [flattenElems_msg, flattenElems_msg]
      exact flattenElems_row_indep rest _ _ _ key (i + 1)
  | .cons (.vother ty) rest, r, ds, ds', key, i => by
      rw [flattenElems_other, flattenElems_other]
      exact flattenElems_row_indep rest _ _ _ key (i + 1)

theorem flattenFields_row_indep :
    ∀ (fields : Fields) (r : Row) (ds ds' : Diags) (pre : String),
      (flattenFields (r, ds) pre fields).1 = (flattenFields (r, ds') pre fields).1
  | .fnil, _, _, _, _ => rfl
  | .fcons f (.vscalar s) rest, r, ds, ds', pre => by
      rw [flattenFields_scalar, flattenFields_scalar]
      exact flattenFields_row_indep rest _ ds ds' pre
  | .fcons f (.vlist elems) rest, r, ds, ds', pre => by
      rw [flattenFields_list, flattenFields_list]
      have hrow := flattenElems_row_indep elems r ds ds' (dkey pre f) 0
      have e1 : flattenElems (r, ds) (dkey pre f) 0 elems
          = ((flattenElems (r, ds) (dkey pre f) 0 elems).1,
              (flattenElems (r, ds) (dkey pre f) 0 elems).2) := rfl
      have e2 : flattenElems (r, ds') (dkey pre f) 0 elems
          = ((flattenElems (r, ds') (dkey pre f) 0 elems).1,
              (flattenElems (r, ds') (dkey pre f) 0 elems).2) := rfl
      rw [e1, e2, hrow]
      exact flattenFields_row_indep rest _ _ _ pre
  | .fcons f (.vmsg sub) rest, r, ds, ds', pre => by
      rw [flattenFields_msg, flattenFields_msg]
      exact flattenFields_row_indep rest _ _ _ pre
  | .fcons f (.vother ty) rest, r, ds, ds', pre => by
      rw [flattenFields_other, flattenFields_other]
      exact flattenFields_row_indep rest _ _ _ pre

theorem flattenElems_diags_prefix :
    ∀ (elems : ValList) (r : Row) (ds0 ds : Diags) (key : String) (i : Nat),
      (flattenElems (r, ds0 ++ ds) key i elems).2
        = ds0 ++ (flattenElems (r, ds) key i elems).2
  | .nil, _, _, _, _, _ => rfl
  | .cons (.vscalar s) rest, r, ds0, ds, key, i => by
      rw [flattenElems_scalar, flattenElems_scalar]
      exact flattenElems_diags_prefix rest _ ds0 ds key (i + 1)
  | .cons (.vlist l) rest, r, ds0, ds, key, i => by
      rw [flattenElems_list, flattenElems_list, List.append_assoc]
      exact flattenElems_diags_prefix rest _ ds0 _ key (i + 1)
  | .cons (.vmsg sub) rest, r, ds0, ds, key, i => by
      rw [flattenElems_msg, flattenElems_msg, List.append_assoc]
      exact flattenElems_diags_prefix rest _ ds0 _ key (i + 1)
  | .cons (.vother ty) rest, r, ds0, ds, key, i => by
      rw [flattenElems_other, flattenElems_other, List.append_assoc]
      exact flattenElems_diags_prefix rest _ ds0 _ key (i + 1)

theorem flattenFields_diags_prefix :
    ∀ (fields : Fields) (r : Row) (ds0 ds : Diags) (pre : String),
      (flattenFields (r, ds0 ++ ds) pre fields).2
        = ds0 ++ (flattenFields (r, ds) pre fields).2
  | .fnil, _, _, _, _ => rfl
  | .fcons f (.vscalar s) rest, r, ds0, ds, pre => by
      rw [flattenFields_scalar, flattenFields_scalar]
      exact flattenFields_diags_prefix rest _ ds0 ds pre
  | .fcons f (.vlist elems) rest, r, ds0, ds, pre => by
      rw [flattenFields_list, flattenFields_list]
      have hrow := flattenElems_row_indep elems r (ds0 ++ ds) ds (dkey pre f) 0
      have hdg := flattenElems_diags_prefix elems r ds0 ds (dkey pre f) 0
      have e1 : flattenElems (r, ds0 ++ ds) (dkey pre f) 0 elems
          = ((flattenElems (r, ds0 ++ ds) (dkey pre f) 0 elems).1,
              (flattenElems (r, ds0 ++ ds) (dkey pre f) 0 elems).2) := rfl
      have e2 : flattenElems (r, ds) (dkey pre f) 0 elems
          = ((flattenElems (r, ds) (dkey pre f) 0 elems).1,
              (flattenElems (r, ds) (dkey pre f) 0 elems).2) := rfl
      rw [e1, e2, hrow, hdg]
      exact flattenFields_diags_prefix rest _ ds0 _ pre
  | .fcons f (.vmsg sub) rest, r, ds0, ds, pre => by
      rw [flattenFields_msg, flattenFields_msg, List.append_assoc]
      exact flattenFields_diags_prefix rest _ ds0 _ pre
  | .fcons f (.vother ty) rest, r, ds0, ds, pre => by
      rw [flattenFields_other, flattenFields_other, List.append_assoc]
      exact flattenFields_diags_prefix rest _ ds0 _ pre

theorem flattenFields_diags_nil (fields : Fields) (r : Row) (ds : Diags)
    (pre : String) :
    (flattenFields (r, ds) pre fields).2
      = ds ++ (flattenFields (r, []) pre fields).2 := by
  have := flattenFields_diags_prefix fields r ds [] pre
  simpa using this

theorem flattenElems_diags_nil (elems : ValList) (r : Row) (ds : Diags)
    (key : String) (i : Nat) :
    (flattenElems (r, ds) key i elems).2
      = ds ++ (flattenElems (r, []) key i elems).2 := by
  have := flattenElems_diags_prefix elems r ds [] key i
  simpa using this

/-! ### Every diagnostic the flattener emits is debug-level -/

mutual
theorem flattenFields_debug :
    ∀ (fields : Fields) (r : Row) (ds : Diags) (pre : String),
      (∀ d ∈ ds, d.1 = LogLevel.debug) →
      ∀ d ∈ (flattenFields (r, ds) pre fields).2, d.1 = LogLevel.debug
  | .fnil, _, _, _, h => h
  | .fcons f (.vscalar s) rest, r, ds, pre, h => by
      rw [flattenFields_scalar]
      exact flattenFields_debug rest _ ds pre h
  | .fcons f (.vlist elems) rest, r, ds, pre, h => by
      rw [flattenFields_list]
      have e1 : flattenElems (r, ds) (dkey pre f) 0 elems
          = ((flattenElems (r, ds) (dkey pre f) 0 elems).1,
              (flattenElems (r, ds) (dkey pre f) 0 elems).2) := rfl
      rw [e1]
      exact flattenFields_debug rest _ _ pre
        (flattenElems_debug elems r ds (dkey pre f) 0 h)
  | .fcons f (.vmsg sub) rest, r, ds, pre, h => by
      rw [flattenFields_msg]
      refine flattenFields_debug rest _ _ pre ?_
      intro d hd
      rcases List.mem_append.1 hd with h1 | h2
      · exact h d h1
      · exact flattenFields_debug sub [] [] (dkey pre f) (by simp) d h2
  | .fcons f (.vother ty) rest, r, ds, pre, h => by
      rw [flattenFields_other]
      refine flattenFields_debug rest _ _ pre ?_
      intro d hd
      rcases List.mem_append.1 hd with h1 | h2
      · exact h d h1
      · rw [List.mem_singleton.1 h2]

theorem flattenElems_debug :
    ∀ (elems : ValList) (r : Row) (ds : Diags) (key : String) (i : Nat),
      (∀ d ∈ ds, d.1 = LogLevel.debug) →
      ∀ d ∈ (flattenElems (r, ds) key i elems).2, d.1 = LogLevel.debug
  | .nil, _, _, _, _, h => h
  | .cons (.vscalar s) rest, r, ds, key, i, h => by
      rw [flattenElems_scalar]
      exact flattenElems_debug rest _ ds key (i + 1) h
  | .cons (.vlist l) rest, r, ds, key, i, h => by
      rw [flattenElems_list]
      refine flattenElems_debug rest _ _ key (i + 1) ?_
      intro d hd
      rcases List.mem_append.1 hd with h1 | h2
      · exact h d h1
      · rw [List.mem_singleton.1 h2]
  | .cons (.vmsg sub) rest, r, ds, key, i, h => by
      rw [flattenElems_msg]
      refine flattenElems_debug rest _ _ key (i + 1) ?_
      intro d hd
      rcases List.mem_append.1 hd with h1 | h2
      · exact h d h1
      · exact flattenFields_debug sub [] [] (ikey key i) (by simp) d h2
  | .cons (.vother ty) rest, r, ds, key, i, h => by
      rw [flattenElems_other]
      refine flattenElems_debug rest _ _ key (i + 1) ?_
      intro d hd
      rcases List.mem_append.1 hd with h1 | h2
      · exact h d h1
      · rw [List.mem_singleton.1 h2]
end

theorem flatten_debug (v : Value) (pre : String) :
    ∀ d ∈ (flatten_ros_message v pre).2, d.1 = LogLevel.debug := by
  cases v with
  | vmsg fields => exact flattenFields_debug fields [] [] pre (by simp)
  | vscalar s => simp [flatten_ros_message]
  | vlist l => simp [flatten_ros_message]
  | vother ty => simp [flatten_ros_message]

/-! ### Flattening sequences of scalars and of nested messages -/

theorem ikey_ne_self (key : String) (j : Nat) : ikey key j ≠ key := by
  intro h
  have hl := congrArg String.length h
  simp only [ikey, String.length_append] at hl
  have h1 : ("[" : String).length = 1 := rfl
  have h2 : ("]" : String).length = 1 := rfl
  rw [h1, h2] at hl
  omega

theorem flattenElems_scalarList :
    ∀ (ss : List Scalar) (r : Row) (ds : Diags) (key : String) (i : Nat),
      (∀ j, i ≤ j → ikey key j ∉ keys r) →
      flattenElems (r, ds) key i (scalarList ss)
        = (r ++ ((List.range' i ss.length).zip ss).map
            (fun p => (ikey key p.1, p.2)), ds) := by
  intro ss
  induction ss with
  | nil => intro r ds key i _; simp [scalarList, flattenElems_nil]
  | cons s rest ih =>
      intro r ds key i hfresh
      have hfresh' : ∀ j, i + 1 ≤ j → ikey key j ∉ keys (r ++ [(ikey key i, s)]) := by
        intro j hj
        have h1 : ikey key j ∉ keys r := hfresh j (by omega)
        have h2 : ikey key j ≠ ikey key i := fun he => by
          have := ikey_inj he; omega
        have hkeys : keys (r ++ [(ikey key i, s)]) = keys r ++ [ikey key i] := by
          simp [keys]
        rw [hkeys]
        simp [h1, h2]
      have hsl : scalarList (s :: rest) = .cons (.vscalar s) (scalarList rest) := rfl
      rw [hsl, flattenElems_scalar,
        dinsert_of_not_mem r (ikey key i, s) (hfresh i (le_refl i)),
        ih _ ds key (i + 1) hfresh', List.length_cons, List.range'_succ]
      simp [List.append_assoc]

theorem flattenElems_msgList :
    ∀ (ms : List Fields) (r : Row) (ds : Diags) (key : String) (i : Nat),
      flattenElems (r, ds) key i (msgList ms)
        = ((List.range' i ms.length).zip ms).foldl
            (fun st im =>
              (dupdate st.1 (flattenFields ([], []) (ikey key im.1) im.2).1,
                st.2 ++ (flattenFields ([], []) (ikey key im.1) im.2).2))
            (r, ds) := by
  intro ms
  induction ms with
  | nil => intro r ds key i; simp [msgList, flattenElems_nil]
  | cons m rest ih =>
      intro r ds key i
      have hml : msgList (m :: rest) = .cons (.vmsg m) (msgList rest) := rfl
      rw [hml, flattenElems_msg, ih _ _ key (i + 1), List.length_cons,
        List.range'_succ]
      simp

/-! ### Claim theorems about the flattener -/

/-- C1: a field whose value is a single nested record flattens to exactly the
entries of recursively flattening that record with the field's dotted key `k`
as prefix; a field whose value is a sequence of nested records flattens to
the left-to-right merge, over the elements at indices `i`, of recursively
flattening each element with prefix `k[i]`; and in every resulting row each
key is bound at most once (values are scalars by the type of `Row`, which
faithfully reflects that the source dict only ever receives basic-typed
values). -/
theorem flatten_nested_record_recursion :
    (∀ (pre f : String) (sub : Fields),
      flatten_ros_message (.vmsg (.fcons f (.vmsg sub) .fnil)) pre
        = flatten_ros_message (.vmsg sub) (dkey pre f)) ∧
    (∀ (pre f : String) (ms : List Fields),
      flatten_ros_message (.vmsg (.fcons f (.vlist (msgList ms)) .fnil)) pre
        = ((List.range ms.length).zip ms).foldl
            (fun st im =>
              (dupdate st.1
                  (flatten_ros_message (.vmsg im.2) (ikey (dkey pre f) im.1)).1,
                st.2 ++
                  (flatten_ros_message (.vmsg im.2) (ikey (dkey pre f) im.1)).2))
            ([], [])) ∧
    (∀ (v : Value) (pre : String), (keys (flatten_ros_message v pre).1).Nodup) := by
  refine ⟨?_, ?_, flatten_nodup_keys⟩
  · intro pre f sub
    show flattenFields ([], []) pre (.fcons f (.vmsg sub) .fnil)
        = flattenFields ([], []) (dkey pre f) sub
    rw [flattenFields_msg, flattenFields_fnil,
      dupdate_nil _ (flattenFields_nodup sub [] [] (dkey pre f) (by simp [keys]))]
    simp
  · intro pre f ms
    show flattenFields ([], []) pre (.fcons f (.vlist (msgList ms)) .fnil) = _
    rw [flattenFields_list, flattenElems_msgList ms [] [] (dkey pre f) 0]
    have e : ∀ x : Row × Diags, flattenFields x pre .fnil = x := fun x => rfl
    rw [e, ← List.range_eq_range']
    rfl

/-- C4: a field whose value is a sequence of scalars flattens to exactly the
entries `(k[i], element)` with values unchanged, and produces no entry keyed
`k` itself; in particular `xs = [10, 20]` yields exactly
`xs[0] ↦ 10, xs[1] ↦ 20`. -/
theorem flatten_scalar_sequence :
    (∀ (f : String) (ss : List Scalar),
      flatten_ros_message (.vmsg (.fcons f (.vlist (scalarList ss)) .fnil)) ""
        = (((List.range ss.length).zip ss).map (fun p => (ikey f p.1, p.2)), [])
      ∧ f ∉ keys
          (flatten_ros_message
            (.vmsg (.fcons f (.vlist (scalarList ss)) .fnil)) "").1) ∧
    flatten_ros_message
      (.vmsg (.fcons "xs"
        (.vlist (.cons (.vscalar (.int 10)) (.cons (.vscalar (.int 20)) .nil)))
        .fnil)) ""
      = ([("xs[0]", .int 10), ("xs[1]", .int 20)], []) := by
  refine ⟨?_, by decide⟩
  intro f ss
  have hmain :
      flatten_ros_message (.vmsg (.fcons f (.vlist (scalarList ss)) .fnil)) ""
        = (((List.range ss.length).zip ss).map (fun p => (ikey f p.1, p.2)), []) := by
    show flattenFields ([], []) "" (.fcons f (.vlist (scalarList ss)) .fnil) = _
    rw [flattenFields_list,
      flattenElems_scalarList ss [] [] (dkey "" f) 0 (by simp [keys])]
    have e : ∀ x : Row × Diags, flattenFields x "" .fnil = x := fun x => rfl
    have hdk : dkey "" f = f := by simp [dkey]
    rw [e, hdk, ← List.range_eq_range']
    simp
  refine ⟨hmain, ?_⟩
  rw [hmain]
  intro hmem
  simp only [keys, List.map_map, List.mem_map, Function.comp] at hmem
  obtain ⟨p, _, hk⟩ := hmem
  exact ikey_ne_self f p.1 hk

/-- C5: when the input record is itself a bare scalar and a (non-empty)
prefix was supplied, flattening returns the single entry `(prefix, record)`
and nothing else. -/
theorem flatten_bare_scalar (s : Scalar) (pre : String) (h : pre ≠ "") :
    flatten_ros_message (.vscalar s) pre = ([(pre, s)], []) := rfl

theorem flatten_bare_scalar_witness :
    ("ns" : String) ≠ "" ∧
      flatten_ros_message (.vscalar (.int 7)) "ns" = ([("ns", .int 7)], []) :=
  ⟨by decide, flatten_bare_scalar (.int 7) "ns" (by decide)⟩

/-- C10: flattening a bare scalar with the default (empty) prefix does not
return an empty row: it returns the single entry whose key is the empty
string and whose value is the scalar. -/
theorem flatten_bare_scalar_default (s : Scalar) :
    flatten_ros_message (.vscalar s) = ([("", s)], [])
    ∧ (flatten_ros_message (.vscalar s)).1 ≠ [] :=
  ⟨rfl, by simp [flatten_ros_message]⟩

/-- C6: writing a colliding dotted key silently overwrites the earlier value
(last write wins), with no diagnostic and no failure: dict assignment always
leaves the last value written under the key, and on a record whose nesting
produces the same dotted key `a.b` twice the flattened row holds exactly the
later value, with an empty diagnostic list. -/
theorem flatten_collision_overwrites :
    (∀ (row : Row) (k : String) (v : Scalar),
      rlookup (dinsert row k v) k = some v) ∧
    flatten_ros_message
      (.vmsg (.fcons "a" (.vmsg (.fcons "b" (.vscalar (.int 1)) .fnil))
        (.fcons "a.b" (.vscalar (.int 2)) .fnil))) ""
      = ([("a.b", .int 2)], []) :=
  ⟨rlookup_dinsert_self, by decide⟩

/-- C7: an unsupported field (or sequence element) contributes no key to the
output row — the row is the same as when processing continues without it,
with a skipped element still consuming its index — produces exactly one
debug-level diagnostic, and the rest of the row is still produced; moreover
every diagnostic the flattener ever emits is debug-level (and flattening is a
total function: no failure is possible). -/
theorem flatten_unsupported_skipped :
    (∀ (r : Row) (ds : Diags) (pre f ty : String) (rest : Fields),
      (flattenFields (r, ds) pre (.fcons f (.vother ty) rest)).1
        = (flattenFields (r, ds) pre rest).1
      ∧ (flattenFields (r, ds) pre (.fcons f (.vother ty) rest)).2
        = (ds ++ [(LogLevel.debug,
            "Skipping unsupported field type for " ++ dkey pre f ++ ": " ++ ty)])
          ++ (flattenFields (r, []) pre rest).2) ∧
    (∀ (r : Row) (ds : Diags) (key : String) (i : Nat) (v : Value)
        (rest : ValList),
      (∀ s, v ≠ .vscalar s) → (∀ sub, v ≠ .vmsg sub) →
      (flattenElems (r, ds) key i (.cons v rest)).1
        = (flattenElems (r, ds) key (i + 1) rest).1
      ∧ (flattenElems (r, ds) key i (.cons v rest)).2
        = (ds ++ [(LogLevel.debug,
            "Skipping unsupported list element type for " ++ ikey key i
              ++ ": " ++ typeName v)])
          ++ (flattenElems (r, []) key (i + 1) rest).2) ∧
    (∀ (v : Value) (pre : String),
      ∀ d ∈ (flatten_ros_message v pre).2, d.1 = LogLevel.debug) := by
  refine ⟨?_, ?_, flatten_debug⟩
  · intro r ds pre f ty rest
    constructor
    · rw [flattenFields_other]
      exact flattenFields_row_indep rest r _ ds pre
    · rw [flattenFields_other, flattenFields_diags_nil]
  · intro r ds key i v rest hs hm
    cases v with
    | vscalar s => exact absurd rfl (hs s)
    | vmsg sub => exact absurd rfl (hm sub)
    | vlist l =>
        constructor
        · rw [flattenElems_list]
          exact flattenElems_row_indep rest r _ ds key (i + 1)
        · rw [flattenElems_list, flattenElems_diags_nil]
    | vother ty =>
        constructor
        · rw [flattenElems_other]
          exact flattenElems_row_indep rest r _ ds key (i + 1)
        · rw [flattenElems_other, flattenElems_diags_nil]

theorem flatten_unsupported_skipped_witness :
    (flattenElems ([], []) "xs" 0 (.cons (.vother "bytes") .nil)).1
      = (flattenElems ([], []) "xs" 1 .nil).1
    ∧ (flattenElems ([], []) "xs" 0 (.cons (.vother "bytes") .nil)).2
      = (([] : Diags) ++ [(LogLevel.debug,
          "Skipping unsupported list element type for " ++ ikey "xs" 0
            ++ ": " ++ typeName (.vother "bytes"))])
        ++ (flattenElems ([], []) "xs" 1 .nil).2 :=
  flatten_unsupported_skipped.2.1 [] [] "xs" 0 (.vother "bytes") .nil
    (fun _ h => Value.noConfusion h) (fun _ h => Value.noConfusion h)

/-! ### Ingest loop lemmas -/

theorem appendRow_of_not_mem (td : TopicData) (topic : String) (row : Row)
    (h : ¬td.any (fun p => p.1 = topic) = true) :
    appendRow td topic row = td ++ [(topic, [row])] := by
  simp only [appendRow]
  rw [if_neg h]

theorem totalRows_append (td : TopicData) (x : String × List Row) :
    totalRows (td ++ [x]) = totalRows td + x.2.length := by
  simp [totalRows]

theorem totalRows_appendRow (topic : String) (row : Row) :
    ∀ td : TopicData, (td.map Prod.fst).Nodup →
      totalRows (appendRow td topic row) = totalRows td + 1 := by
  intro td
  induction td with
  | nil => intro _; simp [appendRow, totalRows]
  | cons p rest ih =>
      intro hnd
      have hp_rest : p.1 ∉ rest.map Prod.fst := (List.nodup_cons.1 hnd).1
      have hrest_nd : (rest.map Prod.fst).Nodup := (List.nodup_cons.1 hnd).2
      by_cases hp : p.1 = topic
      · have hany : (p :: rest).any (fun q => q.1 = topic) = true := by
          simp [hp]
        have hrest : ∀ q ∈ rest, q.1 ≠ topic := by
          intro q hq he
          exact hp_rest (by rw [hp, ← he]; exact List.mem_map_of_mem _ hq)
        have hmap :
            rest.map (fun q => if q.1 = topic then (q.1, q.2 ++ [row]) else q)
              = rest := by
          have hid :
              rest.map (fun q => if q.1 = topic then (q.1, q.2 ++ [row]) else q)
                = rest.map id := by
            apply List.map_congr_left
            intro q hq
            simp [hrest q hq]
          rw [hid, List.map_id]
        simp only [appendRow, hany, if_true, List.map_cons, hp, if_true, hmap]
        simp [totalRows]
        omega
      · by_cases hr : rest.any (fun q => q.1 = topic) = true
        · have hany : (p :: rest).any (fun q => q.1 = topic) = true := by
            simp [List.any_cons, hp, hr]
          have hsub : appendRow rest topic row
              = rest.map (fun q => if q.1 = topic then (q.1, q.2 ++ [row]) else q) := by
            simp only [appendRow, hr, if_true]
          have ihr := ih hrest_nd
          rw [hsub] at ihr
          simp only [appendRow, hany, if_true, List.map_cons, hp, if_false]
          simp only [totalRows, List.map_cons, List.sum_cons] at ihr ⊢
          omega
        · have hany : ¬(p :: rest).any (fun q => q.1 = topic) = true := by
            simp [List.any_cons, hp, hr]
          rw [appendRow_of_not_mem _ _ _ hany, totalRows_append]
          simp

/-- C3: every row the ingest loop appends carries `log_timestamp_ns` equal to
the record's log time (set unconditionally after flattening, so a payload
with zero extractable fields still survives), and a successfully decoded
record contributes exactly one row to its topic's bucket: the empty-row skip
branch is unreachable because the timestamp insert makes the dict non-empty. -/
theorem ingest_row_has_timestamp (st : IngestState) (e : MsgEntry) (m : Value)
    (hdec : e.ros_msg = some m)
    (hnd : (st.topic_data.map Prod.fst).Nodup) :
    rlookup
        (dinsert (flatten_ros_message m "").1 "log_timestamp_ns"
          (Scalar.int e.log_time)) "log_timestamp_ns"
      = some (Scalar.int e.log_time)
    ∧ (ingestStep st e).topic_data
        = appendRow st.topic_data e.topic
            (dinsert (flatten_ros_message m "").1 "log_timestamp_ns"
              (Scalar.int e.log_time))
    ∧ totalRows (ingestStep st e).topic_data = totalRows st.topic_data + 1 := by
  have hstep : (ingestStep st e).topic_data
      = appendRow st.topic_data e.topic
          (dinsert (flatten_ros_message m "").1 "log_timestamp_ns"
            (Scalar.int e.log_time)) := by
    simp only [ingestStep, hdec]
    rw [if_neg (dinsert_ne_nil _ _ _)]
  refine ⟨rlookup_dinsert_self _ _ _, hstep, ?_⟩
  rw [hstep, totalRows_appendRow _ _ st.topic_data hnd]

theorem ingest_row_has_timestamp_witness :
    rlookup
        (dinsert (flatten_ros_message (.vmsg .fnil) "").1 "log_timestamp_ns"
          (Scalar.int 42)) "log_timestamp_ns"
      = some (Scalar.int 42)
    ∧ (ingestStep ⟨[], []⟩ ⟨"/t", some (.vmsg .fnil), 42⟩).topic_data
        = appendRow [] "/t"
            (dinsert (flatten_ros_message (.vmsg .fnil) "").1 "log_timestamp_ns"
              (Scalar.int 42))
    ∧ totalRows (ingestStep ⟨[], []⟩ ⟨"/t", some (.vmsg .fnil), 42⟩).topic_data
        = totalRows ([] : TopicData) + 1 :=
  ingest_row_has_timestamp ⟨[], []⟩ ⟨"/t", some (.vmsg .fnil), 42⟩ (.vmsg .fnil)
    rfl (by simp)

/-- C9: a record that failed to decode is skipped after a warning-level
diagnostic naming its channel, and processing continues: a 3-record stream
on one channel whose middle record fails to decode yields a bucket with
exactly the rows of records 1 and 3 in arrival order, plus one warning. -/
theorem ingest_decode_failure_skipped :
    (∀ (st : IngestState) (e : MsgEntry), e.ros_msg = none →
      ingestStep st e
        = ⟨st.topic_data,
            st.diags ++ [(LogLevel.warning,
              "Skipping message from topic '" ++ e.topic
                ++ "' due to deserialization failure.")]⟩) ∧
    ingest
        [⟨"/t", some (.vmsg (.fcons "x" (.vscalar (.int 1)) .fnil)), 100⟩,
          ⟨"/t", none, 200⟩,
          ⟨"/t", some (.vmsg (.fcons "x" (.vscalar (.int 3)) .fnil)), 300⟩]
      = ⟨[("/t",
            [[("x", .int 1), ("log_timestamp_ns", .int 100)],
              [("x", .int 3), ("log_timestamp_ns", .int 300)]])],
          [(LogLevel.warning,
            "Skipping message from topic '/t' due to deserialization failure.")]⟩ := by
  constructor
  · intro st e h
    simp [ingestStep, h]
  · rfl

theorem ingest_decode_failure_skipped_witness :
    ingestStep ⟨[], []⟩ ⟨"/t", none, 7⟩
      = ⟨[], [] ++ [(LogLevel.warning,
          "Skipping message from topic '" ++ "/t"
            ++ "' due to deserialization failure.")]⟩ :=
  ingest_decode_failure_skipped.1 ⟨[], []⟩ ⟨"/t", none, 7⟩ rfl

/-! ### Table assembly lemmas -/

theorem nodup_erase_eq_filter (l : List String) (a : String) (h : l.Nodup) :
    l.erase a = l.filter (fun x => x ≠ a) := by
  rw [List.Nodup.erase_eq_filter h]
  apply List.filter_congr
  intro x _
  by_cases hx : x = a <;> simp [hx]

theorem cinsert_nodup (cols : List String) (k : String) (h : cols.Nodup) :
    (cinsert cols k).Nodup := by
  unfold cinsert
  by_cases hc : cols.contains k = true
  · rw [if_pos hc]; exact h
  · rw [if_neg hc]
    have hk : k ∉ cols := by
      intro hk
      exact hc (by simp [List.contains, hk])
    simp [List.nodup_append, h, hk]

theorem addRowCols_nodup (row : Row) :
    ∀ cols : List String, cols.Nodup → (addRowCols cols row).Nodup := by
  induction row with
  | nil => intro cols h; exact h
  | cons p rest ih =>
      intro cols h
      exact ih _ (cinsert_nodup cols p.1 h)

theorem colUniverse_aux_nodup (rows : List Row) :
    ∀ cols : List String, cols.Nodup → (rows.foldl addRowCols cols).Nodup := by
  induction rows with
  | nil => intro cols h; exact h
  | cons r rest ih =>
      intro cols h
      exact ih _ (addRowCols_nodup r cols h)

theorem colUniverse_nodup (rows : List Row) : (colUniverse rows).Nodup :=
  colUniverse_aux_nodup rows [] List.nodup_nil

theorem moveUp_true (ordered other : List String) (c : String)
    (h : other.Nodup) :
    moveUp (ordered, other) c true
      = (ordered ++ (if c ∈ other then [c] else []),
          other.filter (fun x => x ≠ c)) := by
  unfold moveUp
  by_cases hc : c ∈ other
  · rw [if_pos ⟨by simp [List.contains, hc], rfl⟩, if_pos hc,
      nodup_erase_eq_filter other c h]
  · rw [if_neg (fun hand => hc (by simpa [List.contains] using hand.1)),
      if_neg hc, List.append_nil,
      List.filter_eq_self.2 (fun a ha => by
        simp only [decide_eq_true_eq]
        exact fun he => hc (he ▸ ha))]

theorem moveUp_false (ordered other : List String) (c : String) :
    moveUp (ordered, other) c false = (ordered, other) := by
  unfold moveUp
  rw [if_neg ?_]
  intro hand
  exact Bool.false_ne_true hand.2

theorem orderedCols_spec (topic : String) (cols : List String)
    (h : cols.Nodup) :
    orderedCols topic cols
      = ["log_timestamp"]
        ++ (if "header.stamp.sec" ∈ cols then ["header.stamp.sec"] else [])
        ++ (if "header.stamp.nanosec" ∈ cols then ["header.stamp.nanosec"] else [])
        ++ (if "stamp.sec" ∈ cols ∧ topic = "/rosout" then ["stamp.sec"] else [])
        ++ (if "stamp.nanosec" ∈ cols ∧ topic = "/rosout" then ["stamp.nanosec"] else [])
        ++ cols.filter (fun c =>
            c ≠ "log_timestamp" ∧ c ≠ "log_timestamp_ns"
            ∧ c ≠ "header.stamp.sec" ∧ c ≠ "header.stamp.nanosec"
            ∧ ¬(c = "stamp.sec" ∧ topic = "/rosout")
            ∧ ¬(c = "stamp.nanosec" ∧ topic = "/rosout")) := by
  have d1 : ("header.stamp.sec" : String) ≠ "log_timestamp" := by decide
  have d2 : ("header.stamp.sec" : String) ≠ "log_timestamp_ns" := by decide
  have d3 : ("header.stamp.nanosec" : String) ≠ "log_timestamp" := by decide
  have d4 : ("header.stamp.nanosec" : String) ≠ "log_timestamp_ns" := by decide
  have d5 : ("header.stamp.nanosec" : String) ≠ "header.stamp.sec" := by decide
  have d6 : ("stamp.sec" : String) ≠ "log_timestamp" := by decide
  have d7 : ("stamp.sec" : String) ≠ "log_timestamp_ns" := by decide
  have d8 : ("stamp.sec" : String) ≠ "header.stamp.sec" := by decide
  have d9 : ("stamp.sec" : String) ≠ "header.stamp.nanosec" := by decide
  have d10 : ("stamp.nanosec" : String) ≠ "log_timestamp" := by decide
  have d11 : ("stamp.nanosec" : String) ≠ "log_timestamp_ns" := by decide
  have d12 : ("stamp.nanosec" : String) ≠ "header.stamp.sec" := by decide
  have d13 : ("stamp.nanosec" : String) ≠ "header.stamp.nanosec" := by decide
  have d14 : ("stamp.nanosec" : String) ≠ "stamp.sec" := by decide
  have hoc : orderedCols topic cols
      = (reorderSteps topic (cols.filter
          (fun c => c ≠ "log_timestamp" ∧ c ≠ "log_timestamp_ns"))).1
        ++ (reorderSteps topic (cols.filter
          (fun c => c ≠ "log_timestamp" ∧ c ≠ "log_timestamp_ns"))).2 := rfl
  have hnd0 : (cols.filter
      (fun c => c ≠ "log_timestamp" ∧ c ≠ "log_timestamp_ns")).Nodup :=
    h.filter _
  have hnd1 : ((cols.filter
      (fun c => c ≠ "log_timestamp" ∧ c ≠ "log_timestamp_ns")).filter
        (fun x => x ≠ "header.stamp.sec")).Nodup := hnd0.filter _
  have hnd2 : (((cols.filter
      (fun c => c ≠ "log_timestamp" ∧ c ≠ "log_timestamp_ns")).filter
        (fun x => x ≠ "header.stamp.sec")).filter
        (fun x => x ≠ "header.stamp.nanosec")).Nodup := hnd1.filter _
  have hnd3 : ((((cols.filter
      (fun c => c ≠ "log_timestamp" ∧ c ≠ "log_timestamp_ns")).filter
        (fun x => x ≠ "header.stamp.sec")).filter
        (fun x => x ≠ "header.stamp.nanosec")).filter
        (fun x => x ≠ "stamp.sec")).Nodup := hnd2.filter _
  rw [hoc]
  unfold reorderSteps
  by_cases ht : topic = "/rosout"
  · have hb : (topic == "/rosout") = true := by
      rw [ht]
      exact beq_self_eq_true _
    rw [hb, moveUp_true _ _ _ hnd0, moveUp_true _ _ _ hnd1,
      moveUp_true _ _ _ hnd2, moveUp_true _ _ _ hnd3]
    have hB : ((((cols.filter
        (fun c => c ≠ "log_timestamp" ∧ c ≠ "log_timestamp_ns")).filter
          (fun x => x ≠ "header.stamp.sec")).filter
          (fun x => x ≠ "header.stamp.nanosec")).filter
          (fun x => x ≠ "stamp.sec")).filter
          (fun x => x ≠ "stamp.nanosec")
        = cols.filter (fun c =>
            c ≠ "log_timestamp" ∧ c ≠ "log_timestamp_ns"
            ∧ c ≠ "header.stamp.sec" ∧ c ≠ "header.stamp.nanosec"
            ∧ ¬(c = "stamp.sec" ∧ topic = "/rosout")
            ∧ ¬(c = "stamp.nanosec" ∧ topic = "/rosout")) := by
      rw [List.filter_filter, List.filter_filter, List.filter_filter,
        List.filter_filter]
      apply List.filter_congr
      intro x _
      simp only [ht, eq_self_iff_true, and_true, ne_eq, Bool.decide_and, decide_not]
      generalize decide (x = "log_timestamp") = b1
      generalize decide (x = "log_timestamp_ns") = b2
      generalize decide (x = "header.stamp.sec") = b3
      generalize decide (x = "header.stamp.nanosec") = b4
      generalize decide (x = "stamp.sec") = b5
      generalize decide (x = "stamp.nanosec") = b6
      cases b1 <;> cases b2 <;> cases b3 <;> cases b4 <;> cases b5 <;>
        cases b6 <;> rfl
    rw [hB]
    simp [List.mem_filter, List.append_assoc, ht, d1, d2, d3, d4, d5, d6, d7,
      d8, d9, d10, d11, d12, d13, d14]
  · have hb : (topic == "/rosout") = false := beq_eq_false_iff_ne.2 ht
    rw [hb, moveUp_true _ _ _ hnd0, moveUp_true _ _ _ hnd1, moveUp_false,
      moveUp_false]
    have hB : (((cols.filter
        (fun c => c ≠ "log_timestamp" ∧ c ≠ "log_timestamp_ns")).filter
          (fun x => x ≠ "header.stamp.sec")).filter
          (fun x => x ≠ "header.stamp.nanosec"))
        = cols.filter (fun c =>
            c ≠ "log_timestamp" ∧ c ≠ "log_timestamp_ns"
            ∧ c ≠ "header.stamp.sec" ∧ c ≠ "header.stamp.nanosec"
            ∧ ¬(c = "stamp.sec" ∧ topic = "/rosout")
            ∧ ¬(c = "stamp.nanosec" ∧ topic = "/rosout")) := by
      rw [List.filter_filter, List.filter_filter]
      apply List.filter_congr
      intro x _
      simp only [ht, and_false, not_false_iff, true_and, and_true, ne_eq,
        Bool.decide_and, decide_not]
      generalize decide (x = "log_timestamp") = b1
      generalize decide (x = "log_timestamp_ns") = b2
      generalize decide (x = "header.stamp.sec") = b3
      generalize decide (x = "header.stamp.nanosec") = b4
      cases b1 <;> cases b2 <;> cases b3 <;> cases b4 <;> rfl
    rw [hB]
    simp [List.mem_filter, List.append_assoc, ht, d1, d2, d3, d4, d5]

theorem not_mem_ite_singleton {x c : String} (P : Prop) [Decidable P]
    (hx : x ≠ c) : x ∉ (if P then [c] else ([] : List String)) := by
  by_cases hP : P <;> simp [hP, hx]

theorem dropNs_of_not_mem (oc : List String)
    (h : "log_timestamp_ns" ∉ oc) : dropNs oc = oc := by
  unfold dropNs
  rw [if_neg (by simp [List.contains, h])]

/-- C2: for a channel whose rows contain `log_timestamp_ns`, the assembled
column order is `log_timestamp` first; then `header.stamp.sec` and
`header.stamp.nanosec` when present; then — only for the `/rosout` channel —
`stamp.sec` and `stamp.nanosec` when present; then all remaining columns in
first-seen order, with `log_timestamp_ns` excluded from the final output. -/
theorem assembled_column_order (topic : String) (rows : List Row)
    (hmem : "log_timestamp_ns" ∈ colUniverse rows) :
    assembleCols topic rows
      = ["log_timestamp"]
        ++ (if "header.stamp.sec" ∈ colUniverse rows
            then ["header.stamp.sec"] else [])
        ++ (if "header.stamp.nanosec" ∈ colUniverse rows
            then ["header.stamp.nanosec"] else [])
        ++ (if "stamp.sec" ∈ colUniverse rows ∧ topic = "/rosout"
            then ["stamp.sec"] else [])
        ++ (if "stamp.nanosec" ∈ colUniverse rows ∧ topic = "/rosout"
            then ["stamp.nanosec"] else [])
        ++ (colUniverse rows).filter (fun c =>
              c ≠ "log_timestamp" ∧ c ≠ "log_timestamp_ns"
              ∧ c ≠ "header.stamp.sec" ∧ c ≠ "header.stamp.nanosec"
              ∧ ¬(c = "stamp.sec" ∧ topic = "/rosout")
              ∧ ¬(c = "stamp.nanosec" ∧ topic = "/rosout"))
      ∧ "log_timestamp_ns" ∉ assembleCols topic rows := by
  have hnd := colUniverse_nodup rows
  have hcont : (colUniverse rows).contains "log_timestamp_ns" = true := by
    simp [List.contains, hmem]
  have hnsBIG : "log_timestamp_ns" ∉
      (["log_timestamp"]
        ++ (if "header.stamp.sec" ∈ colUniverse rows
            then ["header.stamp.sec"] else [])
        ++ (if "header.stamp.nanosec" ∈ colUniverse rows
            then ["header.stamp.nanosec"] else [])
        ++ (if "stamp.sec" ∈ colUniverse rows ∧ topic = "/rosout"
            then ["stamp.sec"] else [])
        ++ (if "stamp.nanosec" ∈ colUniverse rows ∧ topic = "/rosout"
            then ["stamp.nanosec"] else [])
        ++ (colUniverse rows).filter (fun c =>
              c ≠ "log_timestamp" ∧ c ≠ "log_timestamp_ns"
              ∧ c ≠ "header.stamp.sec" ∧ c ≠ "header.stamp.nanosec"
              ∧ ¬(c = "stamp.sec" ∧ topic = "/rosout")
              ∧ ¬(c = "stamp.nanosec" ∧ topic = "/rosout"))) := by
    intro hx
    simp only [List.append_assoc, List.mem_append] at hx
    rcases hx with hx | hx | hx | hx | hx | hx
    · exact absurd (List.mem_singleton.1 hx) (by decide)
    · exact absurd hx (not_mem_ite_singleton _ (by decide))
    · exact absurd hx (not_mem_ite_singleton _ (by decide))
    · exact absurd hx (not_mem_ite_singleton _ (by decide))
    · exact absurd hx (not_mem_ite_singleton _ (by decide))
    · rcases List.mem_filter.1 hx with ⟨-, hcond⟩
      rcases of_decide_eq_true hcond with ⟨-, hne, -⟩
      exact hne rfl
  have hmain : assembleCols topic rows
      = ["log_timestamp"]
        ++ (if "header.stamp.sec" ∈ colUniverse rows
            then ["header.stamp.sec"] else [])
        ++ (if "header.stamp.nanosec" ∈ colUniverse rows
            then ["header.stamp.nanosec"] else [])
        ++ (if "stamp.sec" ∈ colUniverse rows ∧ topic = "/rosout"
            then ["stamp.sec"] else [])
        ++ (if "stamp.nanosec" ∈ colUniverse rows ∧ topic = "/rosout"
            then ["stamp.nanosec"] else [])
        ++ (colUniverse rows).filter (fun c =>
              c ≠ "log_timestamp" ∧ c ≠ "log_timestamp_ns"
              ∧ c ≠ "header.stamp.sec" ∧ c ≠ "header.stamp.nanosec"
              ∧ ¬(c = "stamp.sec" ∧ topic = "/rosout")
              ∧ ¬(c = "stamp.nanosec" ∧ topic = "/rosout")) := by
    unfold assembleCols
    rw [if_pos hcont]
    by_cases hlt : "log_timestamp" ∈ colUniverse rows
    · have hw : withLogTs (colUniverse rows) = colUniverse rows := by
        unfold withLogTs
        rw [if_pos (by simp [List.contains, hlt])]
      rw [hw, orderedCols_spec topic _ hnd, dropNs_of_not_mem _ hnsBIG]
    · have hw : withLogTs (colUniverse rows)
          = colUniverse rows ++ ["log_timestamp"] := by
        unfold withLogTs
        rw [if_neg (by simp [List.contains, hlt])]
      have hnd2 : (colUniverse rows ++ ["log_timestamp"]).Nodup := by
        simp [List.nodup_append, hnd, hlt]
      have hsimp :
          ∀ c : String, c ≠ "log_timestamp" →
            (c ∈ colUniverse rows ++ ["log_timestamp"]
              ↔ c ∈ colUniverse rows) := by
        intro c hc
        simp [List.mem_append, hc]
      have e1 : (if "header.stamp.sec" ∈ colUniverse rows ++ ["log_timestamp"]
          then ["header.stamp.sec"] else ([] : List String))
          = (if "header.stamp.sec" ∈ colUniverse rows
          then ["header.stamp.sec"] else []) := by
        rw [if_congr (hsimp _ (by decide)) rfl rfl]
      have e2 : (if "header.stamp.nanosec" ∈ colUniverse rows ++ ["log_timestamp"]
          then ["header.stamp.nanosec"] else ([] : List String))
          = (if "header.stamp.nanosec" ∈ colUniverse rows
          then ["header.stamp.nanosec"] else []) := by
        rw [if_congr (hsimp _ (by decide)) rfl rfl]
      have e3 : (if "stamp.sec" ∈ colUniverse rows ++ ["log_timestamp"]
            ∧ topic = "/rosout"
          then ["stamp.sec"] else ([] : List String))
          = (if "stamp.sec" ∈ colUniverse rows ∧ topic = "/rosout"
          then ["stamp.sec"] else []) := by
        rw [if_congr (and_congr_left' (hsimp _ (by decide))) rfl rfl]
      have e4 : (if "stamp.nanosec" ∈ colUniverse rows ++ ["log_timestamp"]
            ∧ topic = "/rosout"
          then ["stamp.nanosec"] else ([] : List String))
          = (if "stamp.nanosec" ∈ colUniverse rows ∧ topic = "/rosout"
          then ["stamp.nanosec"] else []) := by
        rw [if_congr (and_congr_left' (hsimp _ (by decide))) rfl rfl]
      have e5 : (colUniverse rows ++ ["log_timestamp"]).filter (fun c =>
            c ≠ "log_timestamp" ∧ c ≠ "log_timestamp_ns"
            ∧ c ≠ "header.stamp.sec" ∧ c ≠ "header.stamp.nanosec"
            ∧ ¬(c = "stamp.sec" ∧ topic = "/rosout")
            ∧ ¬(c = "stamp.nanosec" ∧ topic = "/rosout"))
          = (colUniverse rows).filter (fun c =>
            c ≠ "log_timestamp" ∧ c ≠ "log_timestamp_ns"
            ∧ c ≠ "header.stamp.sec" ∧ c ≠ "header.stamp.nanosec"
            ∧ ¬(c = "stamp.sec" ∧ topic = "/rosout")
            ∧ ¬(c = "stamp.nanosec" ∧ topic = "/rosout")) := by
        rw [List.filter_append]
        simp
      rw [hw, orderedCols_spec topic _ hnd2, e1, e2, e3, e4, e5,
        dropNs_of_not_mem _ hnsBIG]
  exact ⟨hmain, hmain ▸ hnsBIG⟩

theorem assembled_column_order_witness :
    assembleCols "/odom"
        [[("log_timestamp_ns", .int 5), ("header.stamp.sec", .int 1),
          ("header.stamp.nanosec", .int 2), ("velocity", .int 3)]]
      = ["log_timestamp"]
        ++ (if "header.stamp.sec" ∈ colUniverse
              [[("log_timestamp_ns", .int 5), ("header.stamp.sec", .int 1),
                ("header.stamp.nanosec", .int 2), ("velocity", .int 3)]]
            then ["header.stamp.sec"] else [])
        ++ (if "header.stamp.nanosec" ∈ colUniverse
              [[("log_timestamp_ns", .int 5), ("header.stamp.sec", .int 1),
                ("header.stamp.nanosec", .int 2), ("velocity", .int 3)]]
            then ["header.stamp.nanosec"] else [])
        ++ (if "stamp.sec" ∈ colUniverse
              [[("log_timestamp_ns", .int 5), ("header.stamp.sec", .int 1),
                ("header.stamp.nanosec", .int 2), ("velocity", .int 3)]]
              ∧ "/odom" = "/rosout"
            then ["stamp.sec"] else [])
        ++ (if "stamp.nanosec" ∈ colUniverse
              [[("log_timestamp_ns", .int 5), ("header.stamp.sec", .int 1),
                ("header.stamp.nanosec", .int 2), ("velocity", .int 3)]]
              ∧ "/odom" = "/rosout"
            then ["stamp.nanosec"] else [])
        ++ (colUniverse
              [[("log_timestamp_ns", .int 5), ("header.stamp.sec", .int 1),
                ("header.stamp.nanosec", .int 2), ("velocity", .int 3)]]).filter
            (fun c =>
              c ≠ "log_timestamp" ∧ c ≠ "log_timestamp_ns"
              ∧ c ≠ "header.stamp.sec" ∧ c ≠ "header.stamp.nanosec"
              ∧ ¬(c = "stamp.sec" ∧ "/odom" = "/rosout")
              ∧ ¬(c = "stamp.nanosec" ∧ "/odom" = "/rosout"))
      ∧ "log_timestamp_ns" ∉ assembleCols "/odom"
          [[("log_timestamp_ns", .int 5), ("header.stamp.sec", .int 1),
            ("header.stamp.nanosec", .int 2), ("velocity", .int 3)]] :=
  assembled_column_order "/odom"
    [[("log_timestamp_ns", .int 5), ("header.stamp.sec", .int 1),
      ("header.stamp.nanosec", .int 2), ("velocity", .int 3)]] (by decide)

/-- C8: when `log_timestamp_ns` is present in the column universe, the
derived `log_timestamp` cell of each row equals that row's
`log_timestamp_ns` divided by 1 000 000 000 (seconds; the double-precision
float of the source is modelled as an exact rational), and a non-numeric
`log_timestamp_ns` is coerced to the missing marker instead of failing. -/
theorem log_timestamp_seconds (rows : List Row)
    (hcol : "log_timestamp_ns" ∈ colUniverse rows) :
    (∀ r ∈ rows, ∀ n : Int,
      rlookup r "log_timestamp_ns" = some (.int n) →
      logTimestampCell r = some ((n : Rat) / 1000000000)) ∧
    (∀ r ∈ rows, ∀ v : Scalar,
      rlookup r "log_timestamp_ns" = some v → toNumeric v = none →
      logTimestampCell r = none) := by
  constructor
  · intro r _ n hv
    simp [logTimestampCell, hv, toNumeric]
  · intro r _ v hv hnum
    simp [logTimestampCell, hv, hnum]

theorem log_timestamp_seconds_witness :
    logTimestampCell [("log_timestamp_ns", Scalar.int 2000000000)]
      = some (((2000000000 : Int) : Rat) / 1000000000)
    ∧ logTimestampCell [("log_timestamp_ns", Scalar.str "oops")] = none := by
  constructor
  · exact (log_timestamp_seconds
        [[("log_timestamp_ns", Scalar.int 2000000000)],
          [("log_timestamp_ns", Scalar.str "oops")]] (by decide)).1
      [("log_timestamp_ns", Scalar.int 2000000000)] (by simp)
      2000000000 (by decide)
  · exact (log_timestamp_seconds
        [[("log_timestamp_ns", Scalar.int 2000000000)],
          [("log_timestamp_ns", Scalar.str "oops")]] (by decide)).2
      [("log_timestamp_ns", Scalar.str "oops")] (by simp)
      (Scalar.str "oops") (by decide) (by decide)

/-! ### Concrete instantiations of the remaining claim theorems -/

theorem flatten_nested_record_recursion_witness :
    flatten_ros_message
        (.vmsg (.fcons "a" (.vmsg (.fcons "b" (.vscalar (.int 1)) .fnil))
          .fnil)) "p"
      = flatten_ros_message (.vmsg (.fcons "b" (.vscalar (.int 1)) .fnil))
          (dkey "p" "a") :=
  flatten_nested_record_recursion.1 "p" "a"
    (.fcons "b" (.vscalar (.int 1)) .fnil)

theorem flatten_scalar_sequence_witness :
    flatten_ros_message
        (.vmsg (.fcons "xs" (.vlist (scalarList [.int 10, .int 20])) .fnil)) ""
      = (((List.range ([Scalar.int 10, Scalar.int 20]).length).zip
            [Scalar.int 10, Scalar.int 20]).map
          (fun p => (ikey "xs" p.1, p.2)), [])
    ∧ "xs" ∉ keys
        (flatten_ros_message
          (.vmsg (.fcons "xs" (.vlist (scalarList [.int 10, .int 20]))
            .fnil)) "").1 :=
  flatten_scalar_sequence.1 "xs" [.int 10, .int 20]

theorem flatten_collision_overwrites_witness :
    rlookup (dinsert [("k", Scalar.int 1)] "k" (Scalar.int 2)) "k"
      = some (Scalar.int 2) :=
  flatten_collision_overwrites.1 [("k", Scalar.int 1)] "k" (Scalar.int 2)

theorem flatten_bare_scalar_default_witness :
    flatten_ros_message (.vscalar (.int 5)) = ([("", Scalar.int 5)], [])
    ∧ (flatten_ros_message (.vscalar (.int 5))).1 ≠ [] :=
  flatten_bare_scalar_default (.int 5)

end Mcap2Csv
